import Mathlib

/-!
Verification of the quick-cleaner frontend state layer.

The development embeds, as Lean functions, the Zustand store operations
(toasts, scan and delete operations for caches, developer caches, orphans,
large files and duplicate groups) and the component batch-delete loops of
the CacheCleanup and LargeFiles screens.  Each
asynchronous backend invocation is modelled by an explicit
`Except String _` argument: the value the invoke promise resolved or
rejected with.  Component-local React state (the selection set, progress
events) is modelled by explicit values and event traces.
-/

/-- Toast severity, from the `ToastType` union. -/
inductive ToastType where
  | success
  | error
  | warning
  | info
deriving DecidableEq

/-- A toast notification, from the `Toast` interface. -/
structure Toast where
  id : String
  type : ToastType
  title : String
  message : String
deriving DecidableEq

/-- Cache classification, from the `CacheType` union. -/
inductive CacheType where
  | Browser
  | System
  | Application
  | Developer
  | Unknown
deriving DecidableEq

/-- A scanned cache entry, from the `CacheEntry` interface. -/
structure CacheEntry where
  path : String
  name : String
  size : Nat
  cache_type : CacheType
  is_developer_related : Bool
  is_safe_to_delete : Bool
  description : String
deriving DecidableEq

/-- A developer-tool cache, from the `DeveloperCache` interface. -/
structure DeveloperCache where
  name : String
  path : String
  size : Nat
  description : String
  «exists» : Bool
  safe_to_clean : Bool
deriving DecidableEq

/-- Orphan root classification, from the `OrphanType` union. -/
inductive OrphanType where
  | ApplicationSupport
  | Preferences
  | Containers
  | Caches
  | Logs
  | Other
deriving DecidableEq

/-- A leftover file, from the `OrphanFile` interface. -/
structure OrphanFile where
  path : String
  name : String
  size : Nat
  orphan_type : OrphanType
  possible_app_name : String
deriving DecidableEq

/-- Large-file category, from the `FileCategory` union. -/
inductive FileCategory where
  | Video
  | Image
  | Audio
  | Archive
  | Document
  | Application
  | DiskImage
  | Other
deriving DecidableEq

/-- A large file, from the `LargeFile` interface. -/
structure LargeFile where
  path : String
  name : String
  size : Nat
  category : FileCategory
  last_modified : Option Nat
  extension : String
deriving DecidableEq

/-- A member of a duplicate group, from the `DuplicateFile` interface. -/
structure DuplicateFile where
  path : String
  name : String
deriving DecidableEq

/-- A group of identical files, from the `DuplicateGroup` interface. -/
structure DuplicateGroup where
  hash : String
  files : List DuplicateFile
  file_size : Nat
  total_wasted : Nat
deriving DecidableEq

/-- The store state of `useAppStore` (toast counter, toast list, and the
scan-result collections with their loading flags). -/
structure AppState where
  toastCounter : Nat
  toasts : List Toast
  caches : List CacheEntry
  isLoadingCaches : Bool
  developerCaches : List DeveloperCache
  isLoadingDeveloperCaches : Bool
  isDeveloper : Bool
  orphanFiles : List OrphanFile
  isLoadingOrphans : Bool
  largeFiles : List LargeFile
  isLoadingLargeFiles : Bool
  duplicates : List DuplicateGroup
  isLoadingDuplicates : Bool
deriving DecidableEq

/-- The initial store state: empty collections, counter `toastId = 0`. -/
def initState : AppState :=
  ⟨0, [], [], false, [], false, false, [], false, [], false, [], false⟩

/-- The toast id string built by `addToast`: the template
string interpolating the pre-incremented module counter. -/
def mkToastId (n : Nat) : String := "toast-" ++ Nat.repr n

/-- The state change of the store `addToast`: increment the module-level
counter, build the toast, append it to the list.  The `setTimeout`
auto-dismiss it schedules is modelled by the timed store below. -/
def addToast (s : AppState) (ty : ToastType) (title message : String) : AppState :=
  let n := s.toastCounter + 1
  { s with toastCounter := n, toasts := s.toasts ++ [⟨mkToastId n, ty, title, message⟩] }

/-- Store operation `scanCaches`, applied to the outcome of the
`scan_all_caches` invoke: sets the loading flag, replaces `caches` and adds
a success toast on success, adds an error toast on rejection, and resets
the loading flag in the `finally` block. -/
def scanCaches (s : AppState) (r : Except String (List CacheEntry)) : AppState :=
  let s0 := { s with isLoadingCaches := true }
  match r with
  | .ok cs =>
      let s1 := addToast { s0 with caches := cs } ToastType.success "Scan Complete"
        ("Found " ++ Nat.repr cs.length ++ " cache items")
      { s1 with isLoadingCaches := false }
  | .error e =>
      let s1 := addToast s0 ToastType.error "Scan Failed" e
      { s1 with isLoadingCaches := false }

/-- Store operation `scanDuplicates`, applied to the outcome of the
`scan_common_duplicates` invoke. -/
def scanDuplicates (s : AppState) (r : Except String (List DuplicateGroup)) : AppState :=
  let s0 := { s with isLoadingDuplicates := true }
  match r with
  | .ok gs =>
      let s1 := addToast { s0 with duplicates := gs } ToastType.success "Scan Complete"
        ("Found " ++ Nat.repr gs.length ++ " duplicate groups")
      { s1 with isLoadingDuplicates := false }
  | .error e =>
      let s1 := addToast s0 ToastType.error "Scan Failed" e
      { s1 with isLoadingDuplicates := false }

/-- Store operation `deleteCache`, applied to the outcome of the
`delete_cache` invoke: on success filters the entry out of `caches` and
returns true; on rejection adds an error toast and returns false. -/
def deleteCache (s : AppState) (path : String) (r : Except String Unit) : AppState × Bool :=
  match r with
  | .ok _ => ({ s with caches := s.caches.filter (fun c => c.path ≠ path) }, true)
  | .error e => (addToast s ToastType.error "Delete Failed" e, false)

/-- Store operation `cleanDeveloperCache`, applied to the outcome of the
`clean_developer_cache` invoke.  Note the success branch does not touch
`developerCaches`. -/
def cleanDeveloperCache (s : AppState) (path : String) (r : Except String Unit) :
    AppState × Bool :=
  match r with
  | .ok _ => (s, true)
  | .error e => (addToast s ToastType.error "Clean Failed" e, false)

/-- Store operation `deleteOrphan`, applied to the outcome of the
`delete_orphan` invoke. -/
def deleteOrphan (s : AppState) (path : String) (r : Except String Unit) : AppState × Bool :=
  match r with
  | .ok _ => ({ s with orphanFiles := s.orphanFiles.filter (fun o => o.path ≠ path) }, true)
  | .error e => (addToast s ToastType.error "Delete Failed" e, false)

/-- Store operation `deleteFile`, applied to the outcome of the
`move_file_to_trash` invoke. -/
def deleteFile (s : AppState) (path : String) (r : Except String Unit) : AppState × Bool :=
  match r with
  | .ok _ => ({ s with largeFiles := s.largeFiles.filter (fun f => f.path ≠ path) }, true)
  | .error e => (addToast s ToastType.error "Delete Failed" e, false)

/-- Store operation `deleteDuplicate`, applied to the outcome of the
`move_duplicate_to_trash` invoke: on success drops the path from every
group's file list and keeps only groups with more than one file left; the
`hash`, `file_size` and `total_wasted` fields are copied unchanged. -/
def deleteDuplicate (s : AppState) (path : String) (r : Except String Unit) :
    AppState × Bool :=
  match r with
  | .ok _ =>
      let duplicates :=
        (s.duplicates.map (fun g => { g with files := g.files.filter (fun f => f.path ≠ path) })).filter
          (fun g => 1 < g.files.length)
      ({ s with duplicates := duplicates }, true)
  | .error e => (addToast s ToastType.error "Delete Failed" e, false)

/-- Events observable from a component batch-delete run: a progress update
(`setProgress` with current index, batch total and item label) or the
completion of one single-path delete call with its outcome. -/
inductive BatchEvent where
  | progress (current total : Nat) (item : String)
  | deleteDone (path : String) (success : Bool)
deriving DecidableEq

/-- The progress label for a path in the CacheCleanup loop:
the JS expression resolving the name with a fallback to the path
(an empty name is falsy, so it also falls back). -/
def itemNameFor (caches : List CacheEntry) (p : String) : String :=
  match caches.find? (fun c => c.path = p) with
  | some c => if c.name = "" then p else c.name
  | none => p

/-- The result of a component batch-delete loop. -/
structure BatchOut where
  state : AppState
  successCount : Nat
  failCount : Nat
  trace : List BatchEvent
deriving DecidableEq

/-- The `selected` loop body of `CacheCleanup.executeDelete`: for each
index, report progress, await `deleteCache`, and bump the success or fail
counter.  `caches0` is the render-time `caches` array captured by the
closure; `r` gives each path's invoke outcome. -/
def cacheDeleteLoop (caches0 : List CacheEntry) (r : String → Except String Unit)
    (total : Nat) : AppState → Nat → List String → BatchOut
  | s, _, [] => ⟨s, 0, 0, []⟩
  | s, i, p :: rest =>
      let d := deleteCache s p (r p)
      let out := cacheDeleteLoop caches0 r total d.1 (i + 1) rest
      ⟨out.state,
        if d.2 then out.successCount + 1 else out.successCount,
        if d.2 then out.failCount else out.failCount + 1,
        BatchEvent.progress i total (itemNameFor caches0 p) ::
          BatchEvent.deleteDone p d.2 :: out.trace⟩

/-- The summary toast block at the end of `CacheCleanup.executeDelete`. -/
def summaryToast (s : AppState) (successCount failCount : Nat) : AppState :=
  if 0 < successCount ∧ failCount = 0 then
    addToast s ToastType.success "Delete Complete"
      ("Successfully deleted " ++ Nat.repr successCount ++ " cache" ++
        (if 1 < successCount then "s" else ""))
  else if 0 < failCount ∧ 0 < successCount then
    addToast s ToastType.warning "Partial Delete"
      ("Deleted " ++ Nat.repr successCount ++ ", failed " ++ Nat.repr failCount)
  else s

/-- The final state of a component batch delete: store state, the two
counters, the component selection set after the run, and the event trace. -/
structure BatchResult where
  state : AppState
  successCount : Nat
  failCount : Nat
  selection : List String
  trace : List BatchEvent
deriving DecidableEq

/-- The `selected` branch of `CacheCleanup.executeDelete` run to
completion: the serial loop over the selection, then
`setSelectedPaths(new Set())`, the summary toast, and the final progress
reset. -/
def cacheExecuteDeleteSelected (s : AppState) (sel : List String)
    (r : String → Except String Unit) : BatchResult :=
  let out := cacheDeleteLoop s.caches r sel.length s 0 sel
  let s1 := summaryToast out.state out.successCount out.failCount
  ⟨s1, out.successCount, out.failCount, [], out.trace ++ [BatchEvent.progress 0 0 ""]⟩

/-- The progress label for a path in the LargeFiles loop. -/
def lfItemNameFor (files : List LargeFile) (p : String) : String :=
  match files.find? (fun f => f.path = p) with
  | some f => if f.name = "" then p else f.name
  | none => p

/-- The `selected` loop body of `LargeFiles.executeDelete`: for each index,
report progress and await `deleteFile`.  The per-call boolean result is
discarded and no counters exist in this component. -/
def lfDeleteLoop (files0 : List LargeFile) (r : String → Except String Unit)
    (total : Nat) : AppState → Nat → List String → AppState × List BatchEvent
  | s, _, [] => (s, [])
  | s, i, p :: rest =>
      let d := deleteFile s p (r p)
      let out := lfDeleteLoop files0 r total d.1 (i + 1) rest
      (out.1,
        BatchEvent.progress i total (lfItemNameFor files0 p) ::
          BatchEvent.deleteDone p d.2 :: out.2)

/-- The `selected` branch of `LargeFiles.executeDelete` run to completion:
the serial loop, selection cleared, progress reset.  No counters are
accumulated and no summary toast is shown. -/
def lfExecuteDeleteSelected (s : AppState) (sel : List String)
    (r : String → Except String Unit) : AppState × List String × List BatchEvent :=
  let out := lfDeleteLoop s.largeFiles r sel.length s 0 sel
  (out.1, [], out.2 ++ [BatchEvent.progress 0 0 ""])

/-- The safe subset of the cache list, `CacheCleanup.safeCaches`. -/
def safeCaches (caches : List CacheEntry) : List CacheEntry :=
  caches.filter (fun c => c.is_safe_to_delete)

/-- The paths installed into the selection by `CacheCleanup.selectAll`,
and also the paths the `all` batch branch iterates over
(`safeCaches[i].path`). -/
def selectAllPaths (caches : List CacheEntry) : List String :=
  (safeCaches caches).map (fun c => c.path)

/-- One checkbox toggle, `CacheCleanup.toggleSelection`: remove the path if
present, add it otherwise. -/
def toggleSelection (sel : List String) (p : String) : List String :=
  if p ∈ sel then sel.filter (fun q => q ≠ p) else sel ++ [p]

/-- The selection states reachable in the CacheCleanup component for a
fixed cache snapshot.  A toggle requires that some safe entry carries the
path, because the checkbox (the only caller of `toggleSelection`) is
rendered only when `cache.is_safe_to_delete` holds; `selectAll` and
`deselectAll` are the two bulk selection buttons. -/
inductive SelReachable (caches : List CacheEntry) : List String → Prop where
  | init : SelReachable caches []
  | toggle (sel : List String) (p : String) (h : SelReachable caches sel)
      (hp : ∃ c ∈ caches, c.path = p ∧ c.is_safe_to_delete = true) :
      SelReachable caches (toggleSelection sel p)
  | selectAll (sel : List String) (h : SelReachable caches sel) :
      SelReachable caches (selectAllPaths caches)
  | deselectAll (sel : List String) (h : SelReachable caches sel) :
      SelReachable caches []

/-- The toast subsystem with its `setTimeout` timers made explicit: the
module counter `toastId`, the toast list, and the pending auto-dismiss
timers as pairs of fire time and toast id. -/
structure ToastStore where
  toastId : Nat
  toasts : List Toast
  timers : List (Nat × String)
deriving DecidableEq

/-- The initial toast subsystem state. -/
def initToastStore : ToastStore := ⟨0, [], []⟩

/-- The full store `addToast` at wall-clock time `now`: pre-increment the
counter, append the toast, and schedule the auto-dismiss `setTimeout` for
five seconds (5000 ms) later. -/
def addToastTimed (s : ToastStore) (now : Nat) (ty : ToastType)
    (title message : String) : ToastStore :=
  let n := s.toastId + 1
  { toastId := n,
    toasts := s.toasts ++ [⟨mkToastId n, ty, title, message⟩],
    timers := s.timers ++ [(now + 5000, mkToastId n)] }

/-- The store `dismissToast`: keep every toast whose id differs. -/
def dismissToast (s : ToastStore) (id : String) : ToastStore :=
  { s with toasts := s.toasts.filter (fun t => t.id ≠ id) }

/-- One observable event of the toast subsystem: an `addToast` call at some
time, a manual `dismissToast`, or a scheduled timer firing (the `setTimeout`
callback, which runs `dismissToast` on the captured id). -/
inductive TEvent where
  | add (now : Nat) (ty : ToastType) (title message : String)
  | dismiss (id : String)
  | fire (sched : Nat) (id : String)
deriving DecidableEq

/-- Apply one toast event to the store. -/
def stepToast (s : ToastStore) : TEvent → ToastStore
  | .add now ty title message => addToastTimed s now ty title message
  | .dismiss id => dismissToast s id
  | .fire sched id => { dismissToast s id with timers := s.timers.erase (sched, id) }

/-- Run a list of toast events from a state. -/
def runToast (s : ToastStore) (evs : List TEvent) : ToastStore :=
  evs.foldl stepToast s

/-- Modelled from the spec: the Rust command `scan_common_duplicates` is not
part of the frontend sources, so its result contract is taken from the
specification, which requires every returned group to have at least two
files and `total_wasted` equal to `file_size` times one less than the
member count. -/
def scanGroupInv (g : DuplicateGroup) : Prop :=
  2 ≤ g.files.length ∧ g.total_wasted = g.file_size * (g.files.length - 1)

instance (g : DuplicateGroup) : Decidable (scanGroupInv g) := by
  unfold scanGroupInv; infer_instance

/-- Whether a path's invoke outcome is success. -/
def okPred (r : String → Except String Unit) (p : String) : Bool :=
  match r p with
  | .ok _ => true
  | .error _ => false

/-- Decode one decimal digit character. -/
def decDigit (c : Char) : Nat := c.toNat - 48

/-- Decode a most-significant-first decimal digit string. -/
def decodeDigits (l : List Char) : Nat :=
  l.foldl (fun a c => a * 10 + decDigit c) 0

/-- Invariant of the toast subsystem: every held toast id was minted from a
counter value at most the current one, and the held ids are pairwise
distinct. -/
def GoodToasts (s : ToastStore) : Prop :=
  (∀ t ∈ s.toasts, ∃ k, 1 ≤ k ∧ k ≤ s.toastId ∧ t.id = mkToastId k) ∧
  (s.toasts.map Toast.id).Nodup

/-- A three-member duplicate group satisfying the scan contract:
wasted space is twice the shared size. -/
def g3 : DuplicateGroup :=
  ⟨"h", [⟨"/a", "a"⟩, ⟨"/b", "b"⟩, ⟨"/c", "c"⟩], 100, 200⟩

/-- A developer cache entry present on disk and safe to clean. -/
def devYarn : DeveloperCache := ⟨"Yarn Cache", "/dc", 5, "yarn", true, true⟩

/-- A store state holding one developer cache entry. -/
def c3State : AppState := { initState with developerCaches := [devYarn] }

/-- A one-entry cache list whose entry is safe to delete. -/
def c8Caches : List CacheEntry :=
  [⟨"/cache/a", "A", 10, CacheType.Browser, false, true, "browser cache"⟩]

/-- A store state holding the three-member duplicate group. -/
def dupState1 : AppState := { initState with duplicates := [g3] }

/-- The surviving two-member group after the third member of `g3` is
trashed: its `total_wasted` field still carries the scan-time value. -/
def g3After : DuplicateGroup := ⟨"h", [⟨"/a", "a"⟩, ⟨"/b", "b"⟩], 100, 200⟩

theorem decDigit_digitChar : ∀ d : Nat, d < 10 → decDigit (Nat.digitChar d) = d := by
  decide

theorem toDigitsCore_append (f : Nat) :
    ∀ (n : Nat) (l : List Char),
      Nat.toDigitsCore 10 f n l = Nat.toDigitsCore 10 f n [] ++ l := by
  induction f with
  | zero => intro n l; simp [Nat.toDigitsCore]
  | succ f ih =>
      intro n l
      simp only [Nat.toDigitsCore]
      by_cases h : n / 10 = 0
      · simp [h]
      · simp only [h, if_false]
        rw [ih (n / 10) (Nat.digitChar (n % 10) :: l),
          ih (n / 10) [Nat.digitChar (n % 10)]]
        simp

theorem decodeDigits_append_singleton (l : List Char) (c : Char) :
    decodeDigits (l ++ [c]) = decodeDigits l * 10 + decDigit c := by
  simp [decodeDigits, List.foldl_append]

theorem decodeDigits_toDigitsCore (f : Nat) :
    ∀ n : Nat, n < f → decodeDigits (Nat.toDigitsCore 10 f n []) = n := by
  induction f with
  | zero => intro n h; omega
  | succ f ih =>
      intro n h
      simp only [Nat.toDigitsCore]
      by_cases h10 : n / 10 = 0
      · have hd := decDigit_digitChar (n % 10) (Nat.mod_lt n (by norm_num))
        simp [h10, decodeDigits, hd]
        omega
      · simp only [h10, if_false]
        rw [toDigitsCore_append f (n / 10) [Nat.digitChar (n % 10)],
          decodeDigits_append_singleton,
          ih (n / 10) (by omega),
          decDigit_digitChar (n % 10) (by omega)]
        omega

theorem natRepr_injective : Function.Injective Nat.repr := by
  intro m n h
  have hm : decodeDigits (Nat.toDigitsCore 10 (m + 1) m []) = m :=
    decodeDigits_toDigitsCore (m + 1) m (Nat.lt_succ_self m)
  have hn : decodeDigits (Nat.toDigitsCore 10 (n + 1) n []) = n :=
    decodeDigits_toDigitsCore (n + 1) n (Nat.lt_succ_self n)
  have hdata : (Nat.repr m).data = (Nat.repr n).data := by rw [h]
  simp only [Nat.repr, Nat.toDigits, List.asString] at hdata
  rw [← hm, ← hn]
  exact congrArg decodeDigits hdata

theorem mkToastId_injective : Function.Injective mkToastId := by
  intro m n h
  apply natRepr_injective
  have hdata : (mkToastId m).data = (mkToastId n).data := by rw [h]
  simp only [mkToastId, String.data_append] at hdata
  have h2 := List.append_cancel_left hdata
  cases hm : Nat.repr m with
  | mk dm =>
      cases hn : Nat.repr n with
      | mk dn => simp_all

/-- C6: a failed scan command adds an error notification, leaves the prior
cache snapshot unchanged, and resets the loading flag; a successful scan
replaces the display state with exactly the returned array and resets the
loading flag. -/
theorem c6_scan_failure_surfaces :
    (∀ (s : AppState) (e : String),
      (scanCaches s (Except.error e)).caches = s.caches ∧
      (scanCaches s (Except.error e)).isLoadingCaches = false ∧
      (scanCaches s (Except.error e)).toasts =
        s.toasts ++ [⟨mkToastId (s.toastCounter + 1), ToastType.error, "Scan Failed", e⟩]) ∧
    (∀ (s : AppState) (cs : List CacheEntry),
      (scanCaches s (Except.ok cs)).caches = cs ∧
      (scanCaches s (Except.ok cs)).isLoadingCaches = false) := by
  constructor
  · intro s e
    refine ⟨rfl, rfl, ?_⟩
    simp [scanCaches, addToast]
  · intro s cs
    exact ⟨rfl, rfl⟩

/-- C3 counterexample: with one developer cache entry in the display state,
a successful `cleanDeveloperCache` on its path returns true yet the entry
is still present, so the clean operation does not remove the entry from its
collection as the claim states. -/
theorem c3_counterexample :
    (cleanDeveloperCache c3State "/dc" (Except.ok ())).2 = true ∧
    ∃ c ∈ (cleanDeveloperCache c3State "/dc" (Except.ok ())).1.developerCaches,
      c.path = "/dc" := by
  decide

/-- C3 amended: `deleteCache`, `deleteOrphan`, `deleteFile` and
`deleteDuplicate` return true on success and remove every entry carrying
the path from their collection, keeping all others, and return false on
failure leaving the collection unchanged; `cleanDeveloperCache` returns
true exactly on success but never modifies `developerCaches`. -/
theorem c3_single_delete_contract :
    (∀ (s : AppState) (p : String),
      (deleteCache s p (Except.ok ())).2 = true ∧
      (∀ c : CacheEntry, c ∈ (deleteCache s p (Except.ok ())).1.caches ↔
        c ∈ s.caches ∧ c.path ≠ p)) ∧
    (∀ (s : AppState) (p e : String),
      (deleteCache s p (Except.error e)).2 = false ∧
      (deleteCache s p (Except.error e)).1.caches = s.caches) ∧
    (∀ (s : AppState) (p : String),
      (deleteOrphan s p (Except.ok ())).2 = true ∧
      (∀ o : OrphanFile, o ∈ (deleteOrphan s p (Except.ok ())).1.orphanFiles ↔
        o ∈ s.orphanFiles ∧ o.path ≠ p)) ∧
    (∀ (s : AppState) (p e : String),
      (deleteOrphan s p (Except.error e)).2 = false ∧
      (deleteOrphan s p (Except.error e)).1.orphanFiles = s.orphanFiles) ∧
    (∀ (s : AppState) (p : String),
      (deleteFile s p (Except.ok ())).2 = true ∧
      (∀ f : LargeFile, f ∈ (deleteFile s p (Except.ok ())).1.largeFiles ↔
        f ∈ s.largeFiles ∧ f.path ≠ p)) ∧
    (∀ (s : AppState) (p e : String),
      (deleteFile s p (Except.error e)).2 = false ∧
      (deleteFile s p (Except.error e)).1.largeFiles = s.largeFiles) ∧
    (∀ (s : AppState) (p : String),
      (deleteDuplicate s p (Except.ok ())).2 = true ∧
      (∀ g ∈ (deleteDuplicate s p (Except.ok ())).1.duplicates, ∀ f ∈ g.files,
        f.path ≠ p)) ∧
    (∀ (s : AppState) (p e : String),
      (deleteDuplicate s p (Except.error e)).2 = false ∧
      (deleteDuplicate s p (Except.error e)).1.duplicates = s.duplicates) ∧
    (∀ (s : AppState) (p : String) (r : Except String Unit),
      (cleanDeveloperCache s p r).1.developerCaches = s.developerCaches ∧
      ((cleanDeveloperCache s p r).2 = true ↔ r = Except.ok ())) := by
  refine ⟨?_, ?_, ?_, ?_, ?_, ?_, ?_, ?_, ?_⟩
  · intro s p
    refine ⟨rfl, ?_⟩
    intro c
    simp [deleteCache, List.mem_filter]
  · intro s p e; exact ⟨rfl, rfl⟩
  · intro s p
    refine ⟨rfl, ?_⟩
    intro o
    simp [deleteOrphan, List.mem_filter]
  · intro s p e; exact ⟨rfl, rfl⟩
  · intro s p
    refine ⟨rfl, ?_⟩
    intro f
    simp [deleteFile, List.mem_filter]
  · intro s p e; exact ⟨rfl, rfl⟩
  · intro s p
    refine ⟨rfl, ?_⟩
    intro g hg f hf
    simp only [deleteDuplicate, List.mem_filter, List.mem_map] at hg
    obtain ⟨⟨g0, hg0, rfl⟩, _⟩ := hg
    simp only [List.mem_filter, decide_eq_true_eq] at hf
    exact hf.2
  · intro s p e; exact ⟨rfl, rfl⟩
  · intro s p r
    cases r with
    | ok u => exact ⟨rfl, by simp [cleanDeveloperCache]⟩
    | error e => exact ⟨rfl, by simp [cleanDeveloperCache]⟩

/-- Witness for the C3 amended theorem: instantiates the duplicate-delete
conjunct on the concrete three-member group. -/
theorem c3_single_delete_contract_witness :
    g3After ∈ (deleteDuplicate dupState1 "/c" (Except.ok ())).1.duplicates ∧
    (⟨"/a", "a"⟩ : DuplicateFile) ∈ g3After.files ∧
    (⟨"/a", "a"⟩ : DuplicateFile).path ≠ "/c" :=
  ⟨by decide, by decide,
    (c3_single_delete_contract.2.2.2.2.2.2.1 dupState1 "/c").2 g3After (by decide)
      ⟨"/a", "a"⟩ (by decide)⟩

/-- C1 counterexample: the scan snapshot `[g3]` satisfies the spec contract,
but after one successful `deleteDuplicate` of the third member the surviving
group keeps the stale `total_wasted` of 200 bytes while the claimed
equation demands 100, so the invariant fails after deletion. -/
theorem c1_counterexample :
    (∀ g ∈ (scanDuplicates initState (Except.ok [g3])).duplicates, scanGroupInv g) ∧
    ∃ g ∈ ((deleteDuplicate (scanDuplicates initState (Except.ok [g3])) "/c"
        (Except.ok ())).1).duplicates,
      ¬ g.total_wasted = g.file_size * (g.files.length - 1) := by
  decide

/-- C1 amended: immediately after a successful scan every displayed group
satisfies the spec contract (at least two files and
`total_wasted = file_size * (count - 1)`); every successful
`deleteDuplicate` keeps only groups with at least two files, but it copies
`hash`, `file_size` and the scan-time `total_wasted` unchanged while
filtering the file list, so after deletions the wasted-space equation can
fail; a failed delete leaves the groups untouched. -/
theorem c1_duplicates_invariant :
    (∀ (s : AppState) (gs : List DuplicateGroup), (∀ g ∈ gs, scanGroupInv g) →
      ∀ g ∈ (scanDuplicates s (Except.ok gs)).duplicates, scanGroupInv g) ∧
    (∀ (s : AppState) (p : String),
      ∀ g' ∈ ((deleteDuplicate s p (Except.ok ())).1).duplicates,
        2 ≤ g'.files.length ∧
        ∃ g ∈ s.duplicates, g'.hash = g.hash ∧ g'.file_size = g.file_size ∧
          g'.total_wasted = g.total_wasted ∧
          g'.files = g.files.filter (fun f => f.path ≠ p)) ∧
    (∀ (s : AppState) (p e : String),
      ((deleteDuplicate s p (Except.error e)).1).duplicates = s.duplicates) := by
  refine ⟨?_, ?_, ?_⟩
  · intro s gs h g hg
    exact h g hg
  · intro s p g' hg'
    simp only [deleteDuplicate, List.mem_filter, List.mem_map, decide_eq_true_eq] at hg'
    obtain ⟨⟨g, hg, rfl⟩, hlen⟩ := hg'
    exact ⟨hlen, g, hg, rfl, rfl, rfl, rfl⟩
  · intro s p e
    rfl

/-- Witness for the C1 amended theorem: the scan conjunct applied to the
concrete snapshot `[g3]`. -/
theorem c1_duplicates_invariant_witness :
    (∀ g ∈ [g3], scanGroupInv g) ∧
    (∀ g ∈ (scanDuplicates initState (Except.ok [g3])).duplicates, scanGroupInv g) :=
  ⟨by decide, c1_duplicates_invariant.1 initState [g3] (by decide)⟩

theorem deleteCache_snd (s : AppState) (p : String) (r : String → Except String Unit) :
    (deleteCache s p (r p)).2 = okPred r p := by
  cases h : r p <;> simp [deleteCache, okPred, h]

theorem cacheDeleteLoop_counts (caches0 : List CacheEntry) (r : String → Except String Unit)
    (total : Nat) : ∀ (sel : List String) (s : AppState) (i : Nat),
    (cacheDeleteLoop caches0 r total s i sel).successCount = sel.countP (okPred r) ∧
    (cacheDeleteLoop caches0 r total s i sel).failCount =
      sel.countP (fun p => !(okPred r p)) ∧
    (cacheDeleteLoop caches0 r total s i sel).trace.length = 2 * sel.length := by
  intro sel
  induction sel with
  | nil => intro s i; simp [cacheDeleteLoop]
  | cons p rest ih =>
      intro s i
      obtain ⟨ihs, ihf, ihl⟩ := ih (deleteCache s p (r p)).1 (i + 1)
      simp only [cacheDeleteLoop, List.countP_cons, List.length_cons, deleteCache_snd]
      refine ⟨?_, ?_, ?_⟩
      · cases h : okPred r p <;> simp [h, ihs]
      · cases h : okPred r p <;> simp [h, ihf]
      · simp [ihl]; omega

theorem cacheDeleteLoop_get (caches0 : List CacheEntry) (r : String → Except String Unit)
    (total : Nat) : ∀ (sel : List String) (s : AppState) (i k : Nat) (h : k < sel.length),
    (cacheDeleteLoop caches0 r total s i sel).trace.get? (2 * k) =
      some (BatchEvent.progress (i + k) total (itemNameFor caches0 (sel.get ⟨k, h⟩))) ∧
    (cacheDeleteLoop caches0 r total s i sel).trace.get? (2 * k + 1) =
      some (BatchEvent.deleteDone (sel.get ⟨k, h⟩) (okPred r (sel.get ⟨k, h⟩))) := by
  intro sel
  induction sel with
  | nil => intro s i k h; simp at h
  | cons p rest ih =>
      intro s i k h
      cases k with
      | zero =>
          simp [cacheDeleteLoop, deleteCache_snd]
      | succ k =>
          have hk : k < rest.length := by simpa using Nat.lt_of_succ_lt_succ h
          obtain ⟨ih1, ih2⟩ := ih (deleteCache s p (r p)).1 (i + 1) k hk
          have e2 : 2 * (k + 1) = 2 * k + 1 + 1 := by omega
          have harith : i + 1 + k = i + (k + 1) := by omega
          refine ⟨?_, ?_⟩
          · rw [e2]
            simpa [cacheDeleteLoop, harith] using ih1
          · rw [e2]
            simpa [cacheDeleteLoop] using ih2

theorem cacheDeleteLoop_mem (caches0 : List CacheEntry) (r : String → Except String Unit)
    (total : Nat) : ∀ (sel : List String) (s : AppState) (i : Nat), ∀ p ∈ sel,
    BatchEvent.deleteDone p (okPred r p) ∈ (cacheDeleteLoop caches0 r total s i sel).trace := by
  intro sel
  induction sel with
  | nil => intro s i p hp; simp at hp
  | cons q rest ih =>
      intro s i p hp
      rcases List.mem_cons.mp hp with rfl | hp2
      · simp [cacheDeleteLoop, deleteCache_snd]
      · simp only [cacheDeleteLoop, List.mem_cons]
        exact Or.inr (Or.inr (ih (deleteCache s q (r q)).1 (i + 1) p hp2))

/-- C4: the batch delete over the selection is one serial fold over
single-path `deleteCache` calls; every selected path is attempted (its
completion event is in the trace) regardless of other failures, and at
loop completion the success and fail counters sum to the batch length. -/
theorem c4_batch_serial_counts (s : AppState) (sel : List String)
    (r : String → Except String Unit) :
    (cacheExecuteDeleteSelected s sel r).successCount +
      (cacheExecuteDeleteSelected s sel r).failCount = sel.length ∧
    ∀ p ∈ sel, BatchEvent.deleteDone p (okPred r p) ∈
      (cacheExecuteDeleteSelected s sel r).trace := by
  obtain ⟨hs, hf, _⟩ := cacheDeleteLoop_counts s.caches r sel.length sel s 0
  constructor
  · show (cacheDeleteLoop s.caches r sel.length s 0 sel).successCount +
      (cacheDeleteLoop s.caches r sel.length s 0 sel).failCount = sel.length
    rw [hs, hf]
    simpa using (List.length_eq_countP_add_countP (okPred r) sel).symm
  · intro p hp
    exact List.mem_append_left _ (cacheDeleteLoop_mem s.caches r sel.length sel s 0 p hp)

/-- Witness for C4 at a concrete one-element batch. -/
theorem c4_batch_serial_counts_witness :
    "a" ∈ ["a"] ∧
    BatchEvent.deleteDone "a" (okPred (fun _ => Except.ok ()) "a") ∈
      (cacheExecuteDeleteSelected initState ["a"] (fun _ => Except.ok ())).trace :=
  ⟨by decide,
    (c4_batch_serial_counts initState ["a"] (fun _ => Except.ok ())).2 "a" (by decide)⟩

/-- C2 counterexample: over the concrete batch of five paths where the
second and fourth fail, the counts are 3 and 2 as claimed but the
component clears the entire selection afterwards, so the selection does
not retain the failed paths. -/
theorem c2_counterexample :
    (cacheExecuteDeleteSelected initState ["p1", "p2", "p3", "p4", "p5"]
      (fun p => if p = "p2" ∨ p = "p4" then Except.error "boom" else Except.ok ())).successCount
        = 3 ∧
    (cacheExecuteDeleteSelected initState ["p1", "p2", "p3", "p4", "p5"]
      (fun p => if p = "p2" ∨ p = "p4" then Except.error "boom" else Except.ok ())).failCount
        = 2 ∧
    "p2" ∉ (cacheExecuteDeleteSelected initState ["p1", "p2", "p3", "p4", "p5"]
      (fun p => if p = "p2" ∨ p = "p4" then Except.error "boom" else Except.ok ())).selection := by
  decide

/-- C2 amended: a batch delete over five selected paths whose second and
fourth invoke outcomes fail yields success count 3 and fail count 2, and
the selection set afterwards is empty (the branch clears it wholesale
rather than retaining the failed paths). -/
theorem c2_batch_five_two_fail (s : AppState) (p1 p2 p3 p4 p5 e2 e4 : String)
    (r : String → Except String Unit)
    (h1 : r p1 = Except.ok ()) (h2 : r p2 = Except.error e2)
    (h3 : r p3 = Except.ok ()) (h4 : r p4 = Except.error e4)
    (h5 : r p5 = Except.ok ()) :
    (cacheExecuteDeleteSelected s [p1, p2, p3, p4, p5] r).successCount = 3 ∧
    (cacheExecuteDeleteSelected s [p1, p2, p3, p4, p5] r).failCount = 2 ∧
    (cacheExecuteDeleteSelected s [p1, p2, p3, p4, p5] r).selection = [] := by
  obtain ⟨hs, hf, _⟩ :=
    cacheDeleteLoop_counts s.caches r 5 [p1, p2, p3, p4, p5] s 0
  refine ⟨?_, ?_, rfl⟩
  · show (cacheDeleteLoop s.caches r 5 s 0 [p1, p2, p3, p4, p5]).successCount = 3
    rw [hs]
    simp [List.countP_cons, okPred, h1, h2, h3, h4, h5]
  · show (cacheDeleteLoop s.caches r 5 s 0 [p1, p2, p3, p4, p5]).failCount = 2
    rw [hf]
    simp [List.countP_cons, okPred, h1, h2, h3, h4, h5]

/-- Witness for the C2 amended theorem at concrete paths and outcomes. -/
theorem c2_batch_five_two_fail_witness :
    (cacheExecuteDeleteSelected initState ["p1", "p2", "p3", "p4", "p5"]
      (fun p => if p = "p2" ∨ p = "p4" then Except.error "boom" else Except.ok ())).selection
        = [] :=
  (c2_batch_five_two_fail initState "p1" "p2" "p3" "p4" "p5" "boom" "boom" _
    rfl rfl rfl rfl rfl).2.2

/-- C7 counterexample: in a one-item batch the per-item progress event is
emitted before the delete call, and after the delete completes only the
final reset event follows, so no per-item progress is reported after the
completion. -/
theorem c7_counterexample :
    (cacheExecuteDeleteSelected initState ["a"] (fun _ => Except.ok ())).trace =
      [BatchEvent.progress 0 1 "a", BatchEvent.deleteDone "a" true,
        BatchEvent.progress 0 0 ""] ∧
    (cacheExecuteDeleteSelected initState ["a"] (fun _ => Except.ok ())).trace.get? 1 =
      some (BatchEvent.deleteDone "a" true) ∧
    BatchEvent.progress 0 1 "a" ∉
      (cacheExecuteDeleteSelected initState ["a"] (fun _ => Except.ok ())).trace.drop 2 := by
  decide

/-- C7 amended: for every item of the batch a progress event carrying the
item index, the batch total and the item label is reported immediately
before that item's delete call, whose completion follows it in the trace;
a final reset event closes the batch. -/
theorem c7_progress_before_each_delete (s : AppState) (sel : List String)
    (r : String → Except String Unit) :
    (∀ (k : Nat) (h : k < sel.length),
      (cacheExecuteDeleteSelected s sel r).trace.get? (2 * k) =
        some (BatchEvent.progress k sel.length (itemNameFor s.caches (sel.get ⟨k, h⟩))) ∧
      (cacheExecuteDeleteSelected s sel r).trace.get? (2 * k + 1) =
        some (BatchEvent.deleteDone (sel.get ⟨k, h⟩) (okPred r (sel.get ⟨k, h⟩)))) ∧
    (cacheExecuteDeleteSelected s sel r).trace.get? (2 * sel.length) =
      some (BatchEvent.progress 0 0 "") := by
  obtain ⟨_, _, hlen⟩ := cacheDeleteLoop_counts s.caches r sel.length sel s 0
  constructor
  · intro k h
    obtain ⟨h1, h2⟩ := cacheDeleteLoop_get s.caches r sel.length sel s 0 k h
    constructor
    · show ((cacheDeleteLoop s.caches r sel.length s 0 sel).trace ++
          [BatchEvent.progress 0 0 ""]).get? (2 * k) = _
      rw [List.get?_append (by omega)]
      simpa using h1
    · show ((cacheDeleteLoop s.caches r sel.length s 0 sel).trace ++
          [BatchEvent.progress 0 0 ""]).get? (2 * k + 1) = _
      rw [List.get?_append (by omega)]
      exact h2
  · show ((cacheDeleteLoop s.caches r sel.length s 0 sel).trace ++
        [BatchEvent.progress 0 0 ""]).get? (2 * sel.length) = _
    rw [List.get?_append_right (by omega)]
    simp [hlen]

/-- Witness for the C7 amended theorem at a concrete one-item batch. -/
theorem c7_progress_before_each_delete_witness :
    (0 : Nat) < (["a"] : List String).length ∧
    (cacheExecuteDeleteSelected initState ["a"] (fun _ => Except.ok ())).trace.get? 0 =
      some (BatchEvent.progress 0 1 (itemNameFor initState.caches "a")) :=
  ⟨by decide,
    ((c7_progress_before_each_delete initState ["a"] (fun _ => Except.ok ())).1 0
      (by decide)).1⟩

theorem lfDeleteLoop_toasts_all_ok (files0 : List LargeFile)
    (r : String → Except String Unit) (total : Nat) :
    ∀ (sel : List String) (s : AppState) (i : Nat), (∀ p ∈ sel, r p = Except.ok ()) →
    (lfDeleteLoop files0 r total s i sel).1.toasts = s.toasts := by
  intro sel
  induction sel with
  | nil => intro s i _; rfl
  | cons p rest ih =>
      intro s i hall
      have hp : r p = Except.ok () := hall p (List.mem_cons_self p rest)
      have hrest : ∀ q ∈ rest, r q = Except.ok () :=
        fun q hq => hall q (List.mem_cons_of_mem p hq)
      show (lfDeleteLoop files0 r total (deleteFile s p (r p)).1 (i + 1) rest).1.toasts
          = s.toasts
      rw [ih (deleteFile s p (r p)).1 (i + 1) hrest, hp]
      rfl

/-- C5 counterexample: the large-files batch with every delete succeeding
reports nothing at all (the toast list stays empty), and the cache batch in
which every delete fails shows no summary toast either, so counts are not
reported for every domain and every outcome combination. -/
theorem c5_counterexample :
    (lfExecuteDeleteSelected initState ["a", "b"] (fun _ => Except.ok ())).1.toasts = [] ∧
    (∀ t ∈ (cacheExecuteDeleteSelected initState ["a", "b"]
        (fun _ => Except.error "x")).state.toasts,
      t.title ≠ "Delete Complete" ∧ t.title ≠ "Partial Delete") := by
  decide

/-- C5 amended: the cache batch accumulates per-call outcomes into its two
counters and, when at least one call succeeded, appends a summary toast
carrying those counts (success summary when nothing failed, partial
summary otherwise); when no call succeeded it appends no summary; the
large-files batch accumulates no counts and, with all calls succeeding,
reports nothing at all. -/
theorem c5_batch_count_reporting :
    (∀ (s : AppState) (sel : List String) (r : String → Except String Unit),
      (cacheExecuteDeleteSelected s sel r).successCount = sel.countP (okPred r) ∧
      (cacheExecuteDeleteSelected s sel r).failCount =
        sel.countP (fun p => !(okPred r p)) ∧
      (cacheExecuteDeleteSelected s sel r).state =
        summaryToast (cacheDeleteLoop s.caches r sel.length s 0 sel).state
          (cacheExecuteDeleteSelected s sel r).successCount
          (cacheExecuteDeleteSelected s sel r).failCount) ∧
    (∀ (s : AppState) (sc fc : Nat),
      (0 < sc → fc = 0 →
        (summaryToast s sc fc).toasts = s.toasts ++
          [⟨mkToastId (s.toastCounter + 1), ToastType.success, "Delete Complete",
            "Successfully deleted " ++ Nat.repr sc ++ " cache" ++
              (if 1 < sc then "s" else "")⟩]) ∧
      (0 < sc → 0 < fc →
        (summaryToast s sc fc).toasts = s.toasts ++
          [⟨mkToastId (s.toastCounter + 1), ToastType.warning, "Partial Delete",
            "Deleted " ++ Nat.repr sc ++ ", failed " ++ Nat.repr fc⟩]) ∧
      (sc = 0 → summaryToast s sc fc = s)) ∧
    (∀ (s : AppState) (sel : List String) (r : String → Except String Unit),
      (∀ p ∈ sel, r p = Except.ok ()) →
      (lfExecuteDeleteSelected s sel r).1.toasts = s.toasts) := by
  refine ⟨?_, ?_, ?_⟩
  · intro s sel r
    obtain ⟨hs, hf, _⟩ := cacheDeleteLoop_counts s.caches r sel.length sel s 0
    exact ⟨hs, hf, rfl⟩
  · intro s sc fc
    refine ⟨?_, ?_, ?_⟩
    · intro hsc hfc
      simp [summaryToast, hfc, addToast, hsc]
    · intro hsc hfc
      have h1 : ¬ (0 < sc ∧ fc = 0) := by omega
      simp only [summaryToast, if_neg h1, if_pos (And.intro hfc hsc)]
      simp [addToast]
    · intro hsc
      subst hsc
      simp [summaryToast]
  · intro s sel r hall
    show (lfDeleteLoop s.largeFiles r sel.length s 0 sel).1.toasts = s.toasts
    exact lfDeleteLoop_toasts_all_ok s.largeFiles r sel.length sel s 0 hall

/-- Witness for the C5 amended theorem: the success-summary conjunct at
concrete counts and the large-files no-report conjunct at a concrete
all-success batch. -/
theorem c5_batch_count_reporting_witness :
    ((summaryToast initState 2 0).toasts =
      [⟨mkToastId 1, ToastType.success, "Delete Complete",
        "Successfully deleted " ++ Nat.repr 2 ++ " cache" ++ "s"⟩]) ∧
    (lfExecuteDeleteSelected initState ["a"] (fun _ => Except.ok ())).1.toasts = [] := by
  constructor
  · have h := (c5_batch_count_reporting.2.1 initState 2 0).1 (by decide) rfl
    simpa using h
  · exact c5_batch_count_reporting.2.2 initState ["a"] (fun _ => Except.ok ())
      (fun p _ => rfl)

/-- C8: every selection state reachable through the rendered controls (the
checkbox exists only for safe entries, `selectAll` collects only safe
paths, `deselectAll` clears) contains only paths of entries with
`is_safe_to_delete = true`, and the `all` batch branch likewise iterates
only over such entries, so the bulk paths never issue `delete_cache` for an
unsafe entry. -/
theorem c8_bulk_paths_only_safe (caches : List CacheEntry) (sel : List String)
    (h : SelReachable caches sel) :
    (∀ p ∈ sel, ∃ c ∈ caches, c.path = p ∧ c.is_safe_to_delete = true) ∧
    (∀ p ∈ selectAllPaths caches, ∃ c ∈ caches, c.path = p ∧ c.is_safe_to_delete = true) := by
  have hall : ∀ p ∈ selectAllPaths caches,
      ∃ c ∈ caches, c.path = p ∧ c.is_safe_to_delete = true := by
    intro p hp
    simp only [selectAllPaths, safeCaches, List.mem_map, List.mem_filter] at hp
    obtain ⟨c, ⟨hc, hsafe⟩, rfl⟩ := hp
    exact ⟨c, hc, rfl, by simpa using hsafe⟩
  refine ⟨?_, hall⟩
  induction h with
  | init => intro p hp; simp at hp
  | toggle sel p hr hp ih =>
      intro q hq
      unfold toggleSelection at hq
      by_cases hc : p ∈ sel
      · rw [if_pos hc] at hq
        exact ih q (List.mem_of_mem_filter hq)
      · rw [if_neg hc] at hq
        rcases List.mem_append.mp hq with h1 | h2
        · exact ih q h1
        · obtain rfl : q = p := by simpa using h2
          exact hp
  | selectAll sel hr ih => exact hall
  | deselectAll sel hr ih => intro p hp; simp at hp

/-- Witness for C8: the selection reached by pressing Select All over the
concrete safe cache list. -/
theorem c8_bulk_paths_only_safe_witness :
    SelReachable c8Caches (selectAllPaths c8Caches) ∧
    (∀ p ∈ selectAllPaths c8Caches,
      ∃ c ∈ c8Caches, c.path = p ∧ c.is_safe_to_delete = true) :=
  ⟨SelReachable.selectAll [] SelReachable.init,
    (c8_bulk_paths_only_safe c8Caches (selectAllPaths c8Caches)
      (SelReachable.selectAll [] SelReachable.init)).1⟩

theorem goodToasts_init : GoodToasts initToastStore := by
  constructor <;> simp [initToastStore, GoodToasts]

theorem stepToast_toastId_mono (s : ToastStore) (e : TEvent) :
    s.toastId ≤ (stepToast s e).toastId := by
  cases e with
  | add now ty ti m =>
      show s.toastId ≤ s.toastId + 1
      omega
  | dismiss id => exact le_refl _
  | fire sched id => exact le_refl _

theorem runToast_toastId_mono (evs : List TEvent) :
    ∀ s : ToastStore, s.toastId ≤ (runToast s evs).toastId := by
  induction evs with
  | nil => intro s; exact le_refl _
  | cons e rest ih =>
      intro s
      exact le_trans (stepToast_toastId_mono s e) (ih (stepToast s e))

theorem goodToasts_step (s : ToastStore) (e : TEvent) (hg : GoodToasts s) :
    GoodToasts (stepToast s e) := by
  obtain ⟨hb, hnd⟩ := hg
  have hfresh : mkToastId (s.toastId + 1) ∉ s.toasts.map Toast.id := by
    intro hmem
    obtain ⟨t, ht, hid⟩ := List.mem_map.mp hmem
    obtain ⟨k, hk1, hk2, hk3⟩ := hb t ht
    have heq : mkToastId k = mkToastId (s.toastId + 1) := by rw [← hk3, hid]
    have := mkToastId_injective heq
    omega
  have hfilter : ∀ id : String,
      GoodToasts { s with toasts := s.toasts.filter (fun t => t.id ≠ id) } := by
    intro id
    refine ⟨?_, ?_⟩
    · intro t ht
      exact hb t (List.mem_of_mem_filter ht)
    · exact List.Nodup.sublist ((s.toasts.filter_sublist).map Toast.id) hnd
  cases e with
  | add now ty ti m =>
      have hA : ∀ t ∈ (stepToast s (TEvent.add now ty ti m)).toasts,
          ∃ k, 1 ≤ k ∧ k ≤ (stepToast s (TEvent.add now ty ti m)).toastId ∧
            t.id = mkToastId k := by
        intro t ht
        simp only [stepToast, addToastTimed, List.mem_append, List.mem_singleton] at ht
        rcases ht with h1 | rfl
        · obtain ⟨k, hk1, hk2, hk3⟩ := hb t h1
          refine ⟨k, hk1, ?_, hk3⟩
          show k ≤ s.toastId + 1
          omega
        · refine ⟨s.toastId + 1, by omega, ?_, rfl⟩
          show s.toastId + 1 ≤ s.toastId + 1
          omega
      have hB : ((stepToast s (TEvent.add now ty ti m)).toasts.map Toast.id).Nodup := by
        show ((s.toasts ++ [(⟨mkToastId (s.toastId + 1), ty, ti, m⟩ : Toast)]).map Toast.id).Nodup
        rw [List.map_append, List.nodup_append]
        refine ⟨hnd, by simp, ?_⟩
        intro a ha hb2
        obtain rfl : a = mkToastId (s.toastId + 1) := by simpa using hb2
        exact hfresh ha
      exact ⟨hA, hB⟩
  | dismiss id => exact hfilter id
  | fire sched id =>
      obtain ⟨h1, h2⟩ := hfilter id
      exact ⟨h1, h2⟩

theorem goodToasts_run (evs : List TEvent) :
    ∀ s : ToastStore, GoodToasts s → GoodToasts (runToast s evs) := by
  induction evs with
  | nil => intro s hg; exact hg
  | cons e rest ih => intro s hg; exact ih (stepToast s e) (goodToasts_step s e hg)

theorem absent_stable (k : Nat) (evs : List TEvent) :
    ∀ s : ToastStore, k ≤ s.toastId → mkToastId k ∉ s.toasts.map Toast.id →
    mkToastId k ∉ (runToast s evs).toasts.map Toast.id := by
  induction evs with
  | nil => intro s _ habs; exact habs
  | cons e rest ih =>
      intro s hle habs
      refine ih (stepToast s e) (le_trans hle (stepToast_toastId_mono s e)) ?_
      cases e with
      | add now ty ti m =>
          intro hmem
          simp only [stepToast, addToastTimed, List.map_append, List.mem_append] at hmem
          rcases hmem with h1 | h2
          · exact habs h1
          · have heq : mkToastId k = mkToastId (s.toastId + 1) := by simpa using h2
            have := mkToastId_injective heq
            omega
      | dismiss id =>
          intro hmem
          obtain ⟨t, ht, hid⟩ := List.mem_map.mp hmem
          exact habs (List.mem_map.mpr ⟨t, List.mem_of_mem_filter ht, hid⟩)
      | fire sched id =>
          intro hmem
          obtain ⟨t, ht, hid⟩ := List.mem_map.mp hmem
          exact habs (List.mem_map.mpr ⟨t, List.mem_of_mem_filter ht, hid⟩)

theorem dismiss_removes_id (s : ToastStore) (id : String) :
    id ∉ (dismissToast s id).toasts.map Toast.id := by
  intro hmem
  obtain ⟨t, ht, hid⟩ := List.mem_map.mp hmem
  have := List.mem_filter.mp ht
  simp only [decide_eq_true_eq] at this
  exact this.2 hid

theorem filter_eq_erase_of_nodup (id : String) :
    ∀ (l : List Toast), (l.map Toast.id).Nodup → ∀ tx ∈ l, tx.id = id →
    l.filter (fun t => t.id ≠ id) = l.erase tx := by
  intro l
  induction l with
  | nil => intro _ tx htx; simp at htx
  | cons hd tl ih =>
      intro hnd tx htx hid
      have hnd2 : (tl.map Toast.id).Nodup := (List.nodup_cons.mp (by simpa using hnd)).2
      have hhd : hd.id ∉ tl.map Toast.id := (List.nodup_cons.mp (by simpa using hnd)).1
      rcases List.mem_cons.mp htx with rfl | htl
      · have htl_keep : tl.filter (fun t => t.id ≠ id) = tl := by
          apply List.filter_eq_self.mpr
          intro t ht
          simp only [decide_eq_true_eq]
          intro hcontra
          exact hhd (hid ▸ hcontra ▸ List.mem_map.mpr ⟨t, ht, rfl⟩)
        rw [List.erase_cons_head]
        simpa [List.filter_cons, hid] using htl_keep
      · have hne : hd.id ≠ id := by
          intro hcontra
          refine hhd (List.mem_map.mpr ⟨tx, htl, ?_⟩)
          rw [hid, hcontra]
        have herase : (hd :: tl).erase tx = hd :: tl.erase tx := by
          apply List.erase_cons_tail
          simp only [beq_iff_eq]
          intro hcontra
          exact hne (by rw [hcontra, hid])
        rw [herase]
        simp only [List.filter_cons, hne, decide_eq_true_eq]
        simpa [hne] using congrArg (List.cons hd) (ih hnd2 tx htl hid)

/-- C10: an `addToast` call mints the id from the strictly incremented
session counter and schedules its auto-dismiss timer for 5000 ms later;
along any event sequence the held toast ids stay pairwise distinct; once
the scheduled timer for a toast fires, that toast is absent from every
later state no matter what happened in between (in particular an earlier
manual dismissal does not resurrect it); and `dismissToast` removes
exactly the toast carrying the id while keeping every other toast in
place and in order. -/
theorem c10_toast_lifecycle :
    (∀ (s : ToastStore) (now : Nat) (ty : ToastType) (ti m : String),
      (addToastTimed s now ty ti m).toastId = s.toastId + 1 ∧
      (addToastTimed s now ty ti m).toasts =
        s.toasts ++ [⟨mkToastId (s.toastId + 1), ty, ti, m⟩] ∧
      (addToastTimed s now ty ti m).timers =
        s.timers ++ [(now + 5000, mkToastId (s.toastId + 1))]) ∧
    (∀ evs : List TEvent, ((runToast initToastStore evs).toasts.map Toast.id).Nodup) ∧
    (∀ (evs1 : List TEvent) (now : Nat) (ty : ToastType) (ti m : String)
        (evs2 : List TEvent) (sched : Nat) (evs3 : List TEvent),
      mkToastId ((runToast initToastStore evs1).toastId + 1) ∉
        ((runToast initToastStore
          (evs1 ++ TEvent.add now ty ti m :: evs2 ++
            TEvent.fire sched
              (mkToastId ((runToast initToastStore evs1).toastId + 1)) :: evs3)).toasts.map
          Toast.id)) ∧
    (∀ (evs : List TEvent) (id : String) (tx : Toast),
      tx ∈ (runToast initToastStore evs).toasts → tx.id = id →
      (dismissToast (runToast initToastStore evs) id).toasts =
        ((runToast initToastStore evs).toasts).erase tx) := by
  refine ⟨fun s now ty ti m => ⟨rfl, rfl, rfl⟩, ?_, ?_, ?_⟩
  · intro evs
    exact (goodToasts_run evs initToastStore goodToasts_init).2
  · intro evs1 now ty ti m evs2 sched evs3
    have hsplit : runToast initToastStore
        (evs1 ++ TEvent.add now ty ti m :: evs2 ++
          TEvent.fire sched
            (mkToastId ((runToast initToastStore evs1).toastId + 1)) :: evs3) =
        runToast (stepToast
          (runToast (stepToast (runToast initToastStore evs1) (TEvent.add now ty ti m)) evs2)
          (TEvent.fire sched (mkToastId ((runToast initToastStore evs1).toastId + 1)))) evs3 := by
      simp [runToast, List.foldl_append]
    rw [hsplit]
    apply absent_stable
    · have h1 : (runToast initToastStore evs1).toastId + 1 =
          (stepToast (runToast initToastStore evs1) (TEvent.add now ty ti m)).toastId :=
        rfl
      have h2 := runToast_toastId_mono evs2
        (stepToast (runToast initToastStore evs1) (TEvent.add now ty ti m))
      exact le_trans (le_of_eq h1) h2
    · exact dismiss_removes_id _ _
  · intro evs id tx htx hid
    exact filter_eq_erase_of_nodup id _
      (goodToasts_run evs initToastStore goodToasts_init).2 tx htx hid

/-- Witness for C10: the exact-removal conjunct applied after one concrete
`addToast` event. -/
theorem c10_toast_lifecycle_witness :
    (⟨mkToastId 1, ToastType.info, "T", "M"⟩ : Toast) ∈
      (runToast initToastStore [TEvent.add 0 ToastType.info "T" "M"]).toasts ∧
    (dismissToast (runToast initToastStore [TEvent.add 0 ToastType.info "T" "M"])
        (mkToastId 1)).toasts =
      ((runToast initToastStore [TEvent.add 0 ToastType.info "T" "M"]).toasts).erase
        ⟨mkToastId 1, ToastType.info, "T", "M"⟩ :=
  ⟨by decide,
    c10_toast_lifecycle.2.2.2 [TEvent.add 0 ToastType.info "T" "M"] (mkToastId 1)
      ⟨mkToastId 1, ToastType.info, "T", "M"⟩ (by decide) rfl⟩
